import Mathlib

/-!
A shallow embedding of the queue-sizing, register-allocation and lifecycle
logic of `src/providers/mlx5/verbs.c`, with theorems checking the
natural-language specification's claims against it.

Conventions: C `int` return codes become `Except Int _` (negative error
codes) or bare `Nat` errno values, machine integers become `Nat`/`Int`
(the source guards the one multiplication that could overflow, and the
guard is embedded verbatim), and functions that mutate `struct` fields
return records of the fields they write.
-/

namespace Mlx5

/-! ## Arithmetic helpers

`mlx5_round_up_power_of_two` and `align_queue_size` are in the source
(`verbs.c`) and are embedded below, including the former's
`ret > INT_MAX → -ENOMEM` error path.  `mlx5_ilog2` and the `align`
macro live in `mlx5.h`/`mlx5.c`, which is not part of the sources here,
and are modelled from the spec. -/

/-- Fuel-driven rendering of the loop
`for (ret = 1; ret < sz; ret <<= 1);` in `mlx5_round_up_power_of_two`:
the accumulator `acc` starts at 1 and doubles until it is `≥ n`.  The
`long long` loop variable never overflows for the `Nat` inputs used
here, so the loop value is the least power of two `≥ max n 1`. -/
def roundUpPow2Go (n : Nat) : Nat → Nat → Nat
  | 0, acc => acc
  | fuel + 1, acc => if n ≤ acc then acc else roundUpPow2Go n fuel (2 * acc)

/-- The loop value of `mlx5_round_up_power_of_two` (before its
`INT_MAX` check): the least power of two `≥ n` (1 when `n ≤ 1`). -/
def roundUpPow2 (n : Nat) : Nat := roundUpPow2Go n n 1

/-- Modelled from the spec: the provider's `align(v, a)` macro
(`mlx5.h`, absent from `src/`): round `v` up to the next multiple of
`a` (`a` is always a power of two in the source; for such `a` the
bit-mask form equals this division form). -/
def alignUp (v a : Nat) : Nat := ((v + a - 1) / a) * a

theorem roundUpPow2Go_pow (n : Nat) :
    ∀ fuel acc, (∃ m, acc = 2 ^ m) → ∃ m, roundUpPow2Go n fuel acc = 2 ^ m := by
  intro fuel
  induction fuel with
  | zero => intro acc h; exact h
  | succ f ih =>
      intro acc h
      unfold roundUpPow2Go
      split
      · exact h
      · obtain ⟨m, hm⟩ := h
        exact ih (2 * acc) ⟨m + 1, by rw [hm, pow_succ]; ring⟩

/-- The rounded queue size is a power of two. -/
theorem roundUpPow2_pow (n : Nat) : ∃ m, roundUpPow2 n = 2 ^ m :=
  roundUpPow2Go_pow n n 1 ⟨0, rfl⟩

theorem roundUpPow2_pos (n : Nat) : 0 < roundUpPow2 n := by
  obtain ⟨m, hm⟩ := roundUpPow2_pow n
  rw [hm]; exact Nat.pos_pow_of_pos m (by omega)

theorem alignUp_le_of_le (v b a : Nat) (ha : 0 < a) (hd : a ∣ b) (h : v ≤ b) :
    alignUp v a ≤ b := by
  obtain ⟨k, hk⟩ := hd
  unfold alignUp
  subst hk
  have hdiv : (v + a - 1) / a < k + 1 := by
    rw [Nat.div_lt_iff_lt_mul ha]
    have h1 : (k + 1) * a = k * a + a := by ring
    have h3 : a * k = k * a := Nat.mul_comm a k
    omega
  calc (v + a - 1) / a * a ≤ k * a := Nat.mul_le_mul_right a (by omega)
    _ = a * k := Nat.mul_comm k a

/-! ## Descriptor-segment layout constants

Sizes (in bytes) of the wire descriptor segments from `wqe.h`, which is
not under `src/`.  Modelled from the spec: the vendor's fixed wire
descriptor formats referenced by §4.2 ("control segment",
"remote-address segment", "datagram segment", "XRC segment", data
segment, inline-data header, signature segment). -/

def srq_next_seg_sz : Nat := 16

/-- One completion entry, reduced to the fields scavenging inspects:
the owning resource's wire number and whether (on a receive CQ) it
belongs to an attached SRQ rather than the QP's own receive queue. -/
structure Cqe where
  rsn : Nat
  fromSrq : Bool
deriving DecidableEq, Repr

/-- Modelled from the spec: `__mlx5_cq_clean` (`cq.c`, absent from
`src/`), §4.6: remove every completion whose owning-resource field
matches `rsn`, except those that belong to a surviving attached SRQ,
preserving the relative order of the survivors. -/
def cq_clean_entries (entries : List Cqe) (rsn : Nat) (srqAttached : Bool) :
    List Cqe :=
  entries.filter fun e => e.rsn != rsn || (srqAttached && e.fromSrq)

/-- Embedding of `mlx5_lock_cqs`: the sequence of CQ spin-lock acquisitions, with a
CQ identified by its kernel-assigned `cqn` (distinct CQ objects have
distinct `cqn`s, so pointer equality in the source is `cqn` equality
here). -/
def mlx5_lock_cqs (send_cqn recv_cqn : Option Nat) : List Nat :=
  match send_cqn, recv_cqn with
  | some s, some r => if s = r then [s] else if s < r then [s, r] else [r, s]
  | some s, none => [s]
  | none, some r => [r]
  | none, none => []

/-- The scavenge passes `mlx5_destroy_qp` runs (lines 1912–1917): clean
the receive CQ preserving an attached SRQ's completions, then the send
CQ only when it is a different object. -/
def destroy_qp_cleans (send_cqn recv_cqn rsn : Nat) (srqAttached : Bool) :
    List (Nat × Nat × Bool) :=
  (recv_cqn, rsn, srqAttached) ::
    (if send_cqn ≠ recv_cqn then [(send_cqn, rsn, false)] else [])

/-- Effect of a list of scavenge passes on one CQ's entries. -/
def apply_cleans (cqn : Nat) (entries : List Cqe)
    (cleans : List (Nat × Nat × Bool)) : List Cqe :=
  cleans.foldl
    (fun es c => if c.1 = cqn then cq_clean_entries es c.2.1 c.2.2 else es)
    entries

/-- C2: with two distinct CQs the locks are taken in ascending `cqn`
order whichever is the send CQ; with one shared CQ the lock is taken
exactly once and the single scavenge pass already removes every one of
the QP's completions, while completions belonging to an attached SRQ
survive the receive-side pass. -/
theorem cq_lock_order_single_scavenge (s r rsn : Nat) (srq : Bool)
    (entries : List Cqe) :
    (s ≠ r → mlx5_lock_cqs (some s) (some r) = [min s r, max s r] ∧
       List.Chain' (· < ·) (mlx5_lock_cqs (some s) (some r))) ∧
    (s = r → mlx5_lock_cqs (some s) (some r) = [r] ∧
       destroy_qp_cleans s r rsn srq = [(r, rsn, srq)] ∧
       (∀ e ∈ apply_cleans r entries (destroy_qp_cleans s r rsn srq),
          e.rsn = rsn → srq = true ∧ e.fromSrq = true)) ∧
    (∀ e ∈ entries, srq = true → e.fromSrq = true →
       e ∈ cq_clean_entries entries rsn srq) := by
  refine ⟨?_, ?_, ?_⟩
  · intro hne
    simp only [mlx5_lock_cqs, if_neg hne]
    by_cases hlt : s < r
    · rw [if_pos hlt, min_eq_left (le_of_lt hlt), max_eq_right (le_of_lt hlt)]
      exact ⟨rfl, by simp [List.chain'_cons, hlt]⟩
    · have hrlt : r < s := by omega
      rw [if_neg hlt, min_eq_right (by omega), max_eq_left (by omega)]
      exact ⟨rfl, by simp [List.chain'_cons, hrlt]⟩
  · intro he
    subst he
    refine ⟨by simp [mlx5_lock_cqs], by simp [destroy_qp_cleans], ?_⟩
    intro e he hrsn
    have : e ∈ cq_clean_entries entries rsn srq := by
      simpa [apply_cleans, destroy_qp_cleans] using he
    rw [cq_clean_entries, List.mem_filter] at this
    have hp := this.2
    simp only [hrsn, bne_self_eq_false, Bool.false_or, Bool.and_eq_true]
      at hp
    exact hp
  · intro e he hsrq hfrom
    rw [cq_clean_entries, List.mem_filter]
    exact ⟨he, by simp [hsrq, hfrom]⟩

/-- Witness for C2: CQs 3 and 7 in both roles, and a shared CQ 5
holding completions for resources 1 (one via the SRQ) and 2; destroying
resource 1 keeps only its SRQ completion and resource 2's. -/
theorem cq_lock_order_single_scavenge_witness :
    (mlx5_lock_cqs (some 7) (some 3) = [min 7 3, max 7 3] ∧
       List.Chain' (· < ·) (mlx5_lock_cqs (some 7) (some 3))) ∧
    (mlx5_lock_cqs (some 5) (some 5) = [5] ∧
       destroy_qp_cleans 5 5 1 true = [(5, 1, true)] ∧
       (∀ e ∈ apply_cleans 5 [⟨1, false⟩, ⟨2, false⟩, ⟨1, true⟩]
           (destroy_qp_cleans 5 5 1 true),
          e.rsn = 1 → true = true ∧ e.fromSrq = true)) :=
  ⟨(cq_lock_order_single_scavenge 7 3 1 true
      [⟨1, false⟩, ⟨2, false⟩, ⟨1, true⟩]).1 (by decide),
   (cq_lock_order_single_scavenge 5 5 1 true
      [⟨1, false⟩, ⟨2, false⟩, ⟨1, true⟩]).2.1 rfl⟩

/-! ## Destruction ordering (kernel command before local release) -/

/-- The externally visible steps of `mlx5_destroy_qp` /
`mlx5_destroy_srq`, in program order. -/
inductive DstEv where
  | cmdQpDestroy   -- destroying an XSRQ's auxiliary command QP
  | kernelCmd      -- `ibv_cmd_destroy_qp` / `ibv_cmd_destroy_srq`
  | scavenge       -- the CQ clean passes under the CQ locks
  | clearIndex     -- `mlx5_clear_qp` / `mlx5_clear_srq` / `mlx5_clear_uidx`
  | freeDb         -- `mlx5_free_db`
  | freeBuf        -- `mlx5_free_qp_buf` / `mlx5_free_buf` + wrid arrays
  | freeStruct     -- `free(qp)` / `free(srq)`
deriving DecidableEq, Repr

/-- Local-bookkeeping release events. -/
def isRelease : DstEv → Bool
  | .clearIndex | .freeDb | .freeBuf | .freeStruct => true
  | _ => false

/-- The `mlx5_destroy_qp` fields that steer its control flow. -/
structure QpDst where
  rss_qp : Bool
  cqe_version : Bool
  is_dct : Bool
  xrc_tgt : Bool
  state_rtr : Bool
  any_wqe : Bool        -- sq.wqe_cnt || rq.wqe_cnt
deriving DecidableEq, Repr

/-- Embedding of `mlx5_destroy_qp`: the returned code and the event trace, as a
function of the kernel command's outcome. -/
def mlx5_destroy_qp_run (qp : QpDst) (kernelRet : Except Int Unit) :
    Except Int Unit × List DstEv :=
  if qp.rss_qp then
    match kernelRet with
    | .error e => (.error e, [.kernelCmd])
    | .ok _ => (.ok (), [.kernelCmd, .freeStruct])
  else
    match kernelRet with
    | .error e => (.error e, [.kernelCmd])
    | .ok _ =>
        let clears : List DstEv :=
          if ¬qp.cqe_version then
            if qp.is_dct then
              if qp.state_rtr then [.clearIndex] else []
            else if qp.any_wqe then [.clearIndex] else []
          else if ¬qp.xrc_tgt then [.clearIndex] else []
        let frees : List DstEv :=
          if ¬qp.is_dct then [.freeDb, .freeBuf] else []
        (.ok (), [DstEv.kernelCmd, DstEv.scavenge] ++ clears ++ frees ++
          [DstEv.freeStruct])

/-- The `mlx5_destroy_srq` fields that steer its control flow. -/
structure SrqDst where
  has_cmd_qp : Bool
  xsrq_uidx : Bool      -- cqe_version && type == MLX5_RSC_TYPE_XSRQ
deriving DecidableEq, Repr

/-- Embedding of `mlx5_destroy_srq`: the returned code and the event trace, as a
function of the auxiliary command-QP destroy and the kernel command
outcomes. -/
def mlx5_destroy_srq_run (srq : SrqDst) (cmdQpRet kernelRet : Except Int Unit) :
    Except Int Unit × List DstEv :=
  if srq.has_cmd_qp then
    match cmdQpRet with
    | .error e => (.error e, [.cmdQpDestroy])
    | .ok _ =>
        match kernelRet with
        | .error e => (.error e, [.cmdQpDestroy, .kernelCmd])
        | .ok _ => (.ok (), [.cmdQpDestroy, .kernelCmd, .clearIndex,
            .freeDb, .freeBuf, .freeStruct])
  else
    match kernelRet with
    | .error e => (.error e, [.kernelCmd])
    | .ok _ => (.ok (), [.kernelCmd, .clearIndex, .freeDb, .freeBuf,
        .freeStruct])

/-- C3: both destroy paths issue the kernel destroy before any local
release (no release event ever precedes `kernelCmd` in a trace), and a
kernel failure is returned verbatim with no release event at all —
index entry, doorbell record, buffers and the struct stay intact. -/
theorem destroy_kernel_cmd_first_error_intact (qp : QpDst) (srq : SrqDst)
    (e : Int) (kr cq kq : Except Int Unit) :
    (mlx5_destroy_qp_run qp (.error e) =
       (.error e, [DstEv.kernelCmd])) ∧
    ((mlx5_destroy_qp_run qp (.error e)).2.filter isRelease = []) ∧
    (((mlx5_destroy_qp_run qp kr).2.takeWhile
        (fun ev => ev ≠ DstEv.kernelCmd)).filter isRelease = []) ∧
    (srq.has_cmd_qp = true →
       mlx5_destroy_srq_run srq (.error e) kq =
         (.error e, [DstEv.cmdQpDestroy])) ∧
    (cq = .ok () →
       mlx5_destroy_srq_run srq cq (.error e) = (.error e,
         if srq.has_cmd_qp then [DstEv.cmdQpDestroy, DstEv.kernelCmd]
         else [DstEv.kernelCmd])) ∧
    ((mlx5_destroy_srq_run srq cq (.error e)).2.filter isRelease = []) ∧
    (((mlx5_destroy_srq_run srq cq kq).2.takeWhile
        (fun ev => ev ≠ DstEv.kernelCmd)).filter isRelease = []) := by
  have hqp_err : mlx5_destroy_qp_run qp (.error e) =
      (.error e, [DstEv.kernelCmd]) := by
    simp only [mlx5_destroy_qp_run]
    split <;> rfl
  refine ⟨hqp_err, by rw [hqp_err]; rfl, ?_, ?_, ?_, ?_, ?_⟩
  · simp only [mlx5_destroy_qp_run]
    split <;> cases kr <;> simp [isRelease]
  · intro hc
    simp [mlx5_destroy_srq_run, hc]
  · intro hcq
    subst hcq
    simp only [mlx5_destroy_srq_run]
    split <;> simp
  · simp only [mlx5_destroy_srq_run]
    split
    · cases cq <;> simp [isRelease]
    · simp [isRelease]
  · simp only [mlx5_destroy_srq_run]
    split
    · cases cq <;> cases kq <;> simp [isRelease]
    · cases kq <;> simp [isRelease]

/-- Witness for C3: a plain QP (no RSS, legacy indexing, not a DCT) and
an XSRQ with a command QP, kernel destroy failing with `-EBUSY`. -/
theorem destroy_kernel_cmd_first_error_intact_witness :
    mlx5_destroy_qp_run ⟨false, false, false, false, false, true⟩
        (.error (-16)) = (.error (-16), [DstEv.kernelCmd]) ∧
    mlx5_destroy_srq_run ⟨true, true⟩ (.ok ()) (.error (-16)) =
      (.error (-16), [DstEv.cmdQpDestroy, DstEv.kernelCmd]) :=
  ⟨(destroy_kernel_cmd_first_error_intact
      ⟨false, false, false, false, false, true⟩ ⟨true, true⟩ (-16)
      (.ok ()) (.ok ()) (.ok ())).1,
   by
    have h := (destroy_kernel_cmd_first_error_intact
      ⟨false, false, false, false, false, true⟩ ⟨true, true⟩ (-16)
      (.ok ()) (.ok ()) (.ok ())).2.2.2.2.1 rfl
    simpa using h⟩

/-! ## Modify-to-reset -/

/-- A completion left by `cq_clean_entries` that still carries the
removed resource's number must be an SRQ-owned one. -/
theorem cq_clean_entries_residual (l : List Cqe) (rsn : Nat) (s : Bool)
    (e : Cqe) (he : e ∈ cq_clean_entries l rsn s) (hr : e.rsn = rsn) :
    s = true ∧ e.fromSrq = true := by
  rw [cq_clean_entries, List.mem_filter] at he
  have hp := he.2
  simp only [hr, bne_self_eq_false, Bool.false_or, Bool.and_eq_true] at hp
  exact hp

inductive QpsTarget where
  | reset | rtr | other
deriving DecidableEq, Repr

/-- The queue state that the reset path of `mlx5_modify_qp` writes:
the two doorbell-record halves and the four queue cursors. -/
structure ModifySt where
  db_rcv : Nat
  db_snd : Nat
  sq_head : Nat
  sq_tail : Nat
  rq_head : Nat
  rq_tail : Nat
deriving DecidableEq, Repr

/-- Modelled from the spec: `mlx5_init_qp_indices` (`qp.c`, absent from
`src/`), §4.5: "reset all four queue cursors". -/
def mlx5_init_qp_indices (st : ModifySt) : ModifySt :=
  { st with sq_head := 0, sq_tail := 0, rq_head := 0, rq_tail := 0 }

/-- One scavenge pass applied to a map from `cqn` to CQ contents. -/
def clean_cq_map (cqs : Nat → List Cqe) (cqn rsn : Nat) (srq : Bool) :
    Nat → List Cqe :=
  fun j => if j = cqn then cq_clean_entries (cqs j) rsn srq else cqs j

/-- The post-kernel-command tail of `mlx5_modify_qp` (lines 2093–2108):
on a successful transition to `IBV_QPS_RESET`, clean the receive CQ
(preserving an attached SRQ's completions), clean the send CQ when it
is a distinct object, reset the queue cursors and zero both doorbell
halves. -/
def mlx5_modify_qp_run (recvCq sendCq : Option Nat) (rsn : Nat)
    (srqAttached : Bool) (kernelRet : Except Int Unit)
    (maskHasState : Bool) (target : QpsTarget) (st : ModifySt)
    (cqs : Nat → List Cqe) :
    Except Int Unit × ModifySt × (Nat → List Cqe) :=
  match kernelRet with
  | .error e => (.error e, st, cqs)
  | .ok _ =>
      if maskHasState ∧ target = QpsTarget.reset then
        let cqs1 := match recvCq with
          | some rc => clean_cq_map cqs rc rsn srqAttached
          | none => cqs
        let cqs2 :=
          if sendCq ≠ recvCq then
            match sendCq with
            | some sc => clean_cq_map cqs1 sc rsn false
            | none => cqs1
          else cqs1
        (.ok (), { mlx5_init_qp_indices st with db_rcv := 0, db_snd := 0 },
          cqs2)
      else (.ok (), st, cqs)

/-- C8: a successful modify to `IBV_QPS_RESET` zeroes both doorbell
halves, resets the four queue cursors, scavenges the QP's completions
from its receive CQ (keeping an attached SRQ's) and, when distinct,
removes them from its send CQ. -/
theorem modify_reset_zeroes_and_scavenges (recvCq sendCq : Option Nat)
    (rsn : Nat) (srq : Bool) (st : ModifySt) (cqs : Nat → List Cqe)
    (ret : Except Int Unit) (st' : ModifySt) (cqs' : Nat → List Cqe)
    (h : mlx5_modify_qp_run recvCq sendCq rsn srq (.ok ()) true
      QpsTarget.reset st cqs = (ret, st', cqs')) :
    ret = .ok () ∧ st'.db_rcv = 0 ∧ st'.db_snd = 0 ∧
    st'.sq_head = 0 ∧ st'.sq_tail = 0 ∧ st'.rq_head = 0 ∧
    st'.rq_tail = 0 ∧
    (∀ rc, recvCq = some rc →
       ∀ e ∈ cqs' rc, e.rsn = rsn → srq = true ∧ e.fromSrq = true) ∧
    (∀ sc, sendCq = some sc → sendCq ≠ recvCq →
       ∀ e ∈ cqs' sc, e.rsn ≠ rsn) := by
  simp only [mlx5_modify_qp_run, if_pos (⟨rfl, rfl⟩ : true = true ∧
    QpsTarget.reset = QpsTarget.reset)] at h
  injection h with h1 h23
  injection h23 with h2 h3
  subst h1
  subst h2
  subst h3
  refine ⟨rfl, rfl, rfl, rfl, rfl, rfl, rfl, ?_, ?_⟩
  · intro rc hrc e he hr
    subst hrc
    have hmem : e ∈ cq_clean_entries (cqs rc) rsn srq := by
      by_cases hne : sendCq ≠ some rc
      · rw [if_pos hne] at he
        cases sendCq with
        | none => simpa [clean_cq_map] using he
        | some sc =>
            simp only [clean_cq_map] at he
            rcases eq_or_ne rc sc with hrs | hrs
            · exact absurd (by rw [hrs]) hne
            · simpa [hrs] using he
      · rw [if_neg hne] at he
        simpa [clean_cq_map] using he
    exact cq_clean_entries_residual _ _ _ _ hmem hr
  · intro sc hsc hne e he
    subst hsc
    rw [if_pos hne] at he
    simp only [clean_cq_map, if_pos rfl] at he
    intro hr
    have := cq_clean_entries_residual _ _ _ _ he hr
    exact Bool.noConfusion this.1

/-- Witness for C8: a QP on recv CQ 4 (SRQ attached) and send CQ 9,
with one stale completion per CQ plus an SRQ completion; after the
reset both doorbells and cursors are zero, the SRQ completion survives
and the send CQ is purged. -/
theorem modify_reset_zeroes_and_scavenges_witness :
    (Except.ok () : Except Int Unit) = .ok () ∧
    (ModifySt.mk 0 0 0 0 0 0).db_rcv = 0 ∧
    (ModifySt.mk 0 0 0 0 0 0).db_snd = 0 ∧
    (ModifySt.mk 0 0 0 0 0 0).sq_head = 0 ∧
    (ModifySt.mk 0 0 0 0 0 0).sq_tail = 0 ∧
    (ModifySt.mk 0 0 0 0 0 0).rq_head = 0 ∧
    (ModifySt.mk 0 0 0 0 0 0).rq_tail = 0 ∧
    (∀ rc, (some 4 : Option Nat) = some rc →
       ∀ e ∈ (mlx5_modify_qp_run (some 4) (some 9) 1 true (.ok ()) true
         QpsTarget.reset (ModifySt.mk 7 8 1 2 3 4)
         (fun j => if j = 4 then [⟨1, false⟩, ⟨1, true⟩, ⟨2, false⟩]
           else if j = 9 then [⟨1, false⟩, ⟨2, false⟩] else [])).2.2 rc,
         e.rsn = 1 → true = true ∧ e.fromSrq = true) ∧
    (∀ sc, (some 9 : Option Nat) = some sc →
       (some 9 : Option Nat) ≠ some 4 →
       ∀ e ∈ (mlx5_modify_qp_run (some 4) (some 9) 1 true (.ok ()) true
         QpsTarget.reset (ModifySt.mk 7 8 1 2 3 4)
         (fun j => if j = 4 then [⟨1, false⟩, ⟨1, true⟩, ⟨2, false⟩]
           else if j = 9 then [⟨1, false⟩, ⟨2, false⟩] else [])).2.2 sc,
         e.rsn ≠ 1) := by
  have h := modify_reset_zeroes_and_scavenges (some 4) (some 9) 1 true
    (ModifySt.mk 7 8 1 2 3 4)
    (fun j => if j = 4 then [⟨1, false⟩, ⟨1, true⟩, ⟨2, false⟩]
      else if j = 9 then [⟨1, false⟩, ⟨2, false⟩] else [])
    (mlx5_modify_qp_run (some 4) (some 9) 1 true (.ok ()) true
      QpsTarget.reset (ModifySt.mk 7 8 1 2 3 4)
      (fun j => if j = 4 then [⟨1, false⟩, ⟨1, true⟩, ⟨2, false⟩]
        else if j = 9 then [⟨1, false⟩, ⟨2, false⟩] else [])).1
    (mlx5_modify_qp_run (some 4) (some 9) 1 true (.ok ()) true
      QpsTarget.reset (ModifySt.mk 7 8 1 2 3 4)
      (fun j => if j = 4 then [⟨1, false⟩, ⟨1, true⟩, ⟨2, false⟩]
        else if j = 9 then [⟨1, false⟩, ⟨2, false⟩] else [])).2.1
    (mlx5_modify_qp_run (some 4) (some 9) 1 true (.ok ()) true
      QpsTarget.reset (ModifySt.mk 7 8 1 2 3 4)
      (fun j => if j = 4 then [⟨1, false⟩, ⟨1, true⟩, ⟨2, false⟩]
        else if j = 9 then [⟨1, false⟩, ⟨2, false⟩] else [])).2.2 rfl
  exact ⟨rfl, rfl, rfl, rfl, rfl, rfl, rfl, h.2.2.2.2.2.2.2.1,
    h.2.2.2.2.2.2.2.2⟩

/-! ## Thread-domain and parent-domain reference counts -/

/-- Embedding of `mlx5_put_bfreg_index`: decrement a dynamic-BF usage counter. -/
def mlx5_put_bfreg_index (counts : List Nat) (i : Nat) : List Nat :=
  counts.set i (counts.getD i 0 - 1)

/-- The thread-domain fields `mlx5_dealloc_td` reads. -/
structure TdSt where
  refcount : Nat
  bfreg_dyn_index : Nat
deriving DecidableEq, Repr

/-- Embedding of `mlx5_dealloc_td`: returns the errno, the dynamic-BF counter array
after the call, and whether the object was freed. -/
def mlx5_dealloc_td (td : TdSt) (counts : List Nat) :
    Nat × List Nat × Bool :=
  if td.refcount > 1 then (16, counts, false)
  else (0, mlx5_put_bfreg_index counts td.bfreg_dyn_index, true)

/-- The parent-domain reference counts `mlx5_dealloc_parent_domain`
touches: its own, the wrapped protection domain's, and (when a thread
domain is attached) the thread domain's. -/
structure PdSt where
  refcount : Nat
  base_refcount : Nat
  td_refcount : Option Nat
deriving DecidableEq, Repr

/-- Embedding of `mlx5_dealloc_parent_domain`: returns the errno, the reference
counts after the call, and whether the object was freed. -/
def mlx5_dealloc_parent_domain (pd : PdSt) : Nat × PdSt × Bool :=
  if pd.refcount > 1 then (16, pd, false)
  else (0,
    { pd with
      base_refcount := pd.base_refcount - 1
      td_refcount := pd.td_refcount.map (fun n => n - 1) },
    true)

/-- C9: deallocating a thread domain or a parent domain that is still
referenced (refcount > 1) fails with `EBUSY` and changes nothing — the
BF counter array and every reference count stay intact, the object is
not freed; deallocation succeeds exactly when the caller holds the last
reference. -/
theorem dealloc_busy_while_referenced (td : TdSt) (counts : List Nat)
    (pd : PdSt) :
    (1 < td.refcount → mlx5_dealloc_td td counts = (16, counts, false)) ∧
    ((mlx5_dealloc_td td counts).1 = 0 ↔ td.refcount ≤ 1) ∧
    (1 < pd.refcount → mlx5_dealloc_parent_domain pd = (16, pd, false)) ∧
    ((mlx5_dealloc_parent_domain pd).1 = 0 ↔ pd.refcount ≤ 1) := by
  refine ⟨?_, ?_, ?_, ?_⟩
  · intro h
    simp [mlx5_dealloc_td, h]
  · simp only [mlx5_dealloc_td]
    split <;> rename_i h <;> simp <;> omega
  · intro h
    simp [mlx5_dealloc_parent_domain, h]
  · simp only [mlx5_dealloc_parent_domain]
    split <;> rename_i h <;> simp <;> omega

/-- Witness for C9: a thread domain and a parent domain each holding a
second reference are rejected with `EBUSY` and left intact; with the
last reference both succeed. -/
theorem dealloc_busy_while_referenced_witness :
    mlx5_dealloc_td ⟨2, 0⟩ [1, 1] = (16, [1, 1], false) ∧
    ((mlx5_dealloc_td ⟨1, 0⟩ [1, 1]).1 = 0 ↔ (1 : Nat) ≤ 1) ∧
    mlx5_dealloc_parent_domain ⟨3, 1, some 1⟩ = (16, ⟨3, 1, some 1⟩, false) ∧
    ((mlx5_dealloc_parent_domain ⟨1, 1, none⟩).1 = 0 ↔ (1 : Nat) ≤ 1) :=
  ⟨(dealloc_busy_while_referenced ⟨2, 0⟩ [1, 1] ⟨3, 1, some 1⟩).1
      (by decide),
   (dealloc_busy_while_referenced ⟨1, 0⟩ [1, 1] ⟨3, 1, some 1⟩).2.1,
   (dealloc_busy_while_referenced ⟨2, 0⟩ [1, 1] ⟨3, 1, some 1⟩).2.2.1
      (by decide),
   (dealloc_busy_while_referenced ⟨2, 0⟩ [1, 1] ⟨1, 1, none⟩).2.2.2⟩

/-! ## Dynamic BF register allocator -/

/-- The scan loop of `mlx5_get_bfreg_index`: index of the first zero
usage counter. -/
def firstZero : List Nat → Option Nat
  | [] => none
  | c :: rest => if c = 0 then some 0 else (firstZero rest).map (· + 1)

/-- Embedding of `mlx5_get_bfreg_index`: find the first free dynamic-BF slot and
mark it in use (increment its counter), or report none free. -/
def mlx5_get_bfreg_index (counts : List Nat) : Option Nat × List Nat :=
  match firstZero counts with
  | some i => (some i, counts.set i (counts.getD i 0 + 1))
  | none => (none, counts)

/-- The allocator state `mlx5_attach_dedicated_bf` touches:
`count_dyn_bfregs`, whether `bfs[start + i].reg` is already set, and
whether each UAR page group is already mapped. -/
structure BfSt where
  counts : List Nat
  regSet : List Bool
  pageMapped : List Bool
deriving DecidableEq, Repr

/-- Embedding of `mlx5_attach_dedicated_bf`: acquire a dedicated BF for a thread
domain.  `perPage` is `num_bfregs_per_page`; `mapOk` is the outcome of
the `mlx5_mmap` call when one is needed.  Errors: 2 (`ENOENT`) when no
counter is zero, 12 standing for the `errno` the failed mapping left
behind (the slot's counter is put back first). -/
def mlx5_attach_dedicated_bf (st : BfSt) (perPage : Nat) (mapOk : Bool) :
    Except Nat Nat × BfSt :=
  match mlx5_get_bfreg_index st.counts with
  | (none, counts') => (.error 2, { st with counts := counts' })
  | (some i, counts') =>
      let st' := { st with counts := counts' }
      if st'.regSet.getD i false then (.ok i, st')
      else
        let page := i / perPage
        if st'.pageMapped.getD page false then
          (.ok i, { st' with regSet := st'.regSet.set i true })
        else if mapOk then
          (.ok i, { st' with
            pageMapped := st'.pageMapped.set page true
            regSet := st'.regSet.set i true })
        else
          (.error 12,
            { st' with counts := mlx5_put_bfreg_index st'.counts i })

/-- Number of free (zero) counters. -/
def zeroCount (l : List Nat) : Nat := l.countP (fun c => c == 0)

/-- A run of consecutive `mlx5_attach_dedicated_bf` calls (one boolean
mapping outcome each, no intervening release), counting successes. -/
def runAcquires (perPage : Nat) : List Bool → BfSt → Nat × BfSt
  | [], st => (0, st)
  | m :: ms, st =>
      match mlx5_attach_dedicated_bf st perPage m with
      | (.ok _, st') =>
          ((runAcquires perPage ms st').1 + 1, (runAcquires perPage ms st').2)
      | (.error _, st') => runAcquires perPage ms st'

theorem getD_default_irrel (l : List Nat) (i d d' : Nat)
    (h : i < l.length) : l.getD i d = l.getD i d' := by
  induction l generalizing i with
  | nil => simp at h
  | cons c rest ih =>
      cases i with
      | zero => rfl
      | succ j => exact ih j (by simpa using h)

theorem getD_set_self (l : List Nat) (i v d : Nat) (h : i < l.length) :
    (l.set i v).getD i d = v := by
  induction l generalizing i with
  | nil => simp at h
  | cons c rest ih =>
      cases i with
      | zero => rfl
      | succ j => exact ih j (by simpa using h)

theorem set_zero_eq_self (l : List Nat) (i : Nat) (h : l.getD i 1 = 0) :
    l.set i 0 = l := by
  induction l generalizing i with
  | nil => rfl
  | cons c rest ih =>
      cases i with
      | zero => simp_all [List.getD]
      | succ j =>
          simp only [List.set]
          rw [ih j (by simpa [List.getD] using h)]

theorem firstZero_some (l : List Nat) (i : Nat) (h : firstZero l = some i) :
    i < l.length ∧ l.getD i 1 = 0 := by
  induction l generalizing i with
  | nil => exact Option.noConfusion h
  | cons c rest ih =>
      simp only [firstZero] at h
      split at h
      · rename_i hc
        have : i = 0 := by simpa using h.symm
        subst this
        simpa [List.getD] using hc
      · rcases Option.map_eq_some'.mp h with ⟨j, hj, hij⟩
        obtain ⟨hlen, hz⟩ := ih j hj
        subst hij
        exact ⟨by simpa using hlen, by simpa [List.getD] using hz⟩

theorem firstZero_none_of (l : List Nat) (h : ∀ x ∈ l, x ≠ 0) :
    firstZero l = none := by
  induction l with
  | nil => rfl
  | cons c rest ih =>
      simp only [firstZero]
      rw [if_neg (h c (by simp)), ih (fun x hx => h x (by simp [hx]))]
      rfl

theorem firstZero_le_of_zero (l : List Nat) (i : Nat)
    (hi : i < l.length) (h : l.getD i 1 = 0) :
    ∃ j, firstZero l = some j ∧ j ≤ i := by
  induction l generalizing i with
  | nil => simp at hi
  | cons c rest ih =>
      by_cases hc : c = 0
      · exact ⟨0, by simp [firstZero, hc], Nat.zero_le i⟩
      · cases i with
        | zero => simp_all [List.getD]
        | succ j =>
            obtain ⟨k, hk, hkle⟩ := ih j (by simpa using hi)
              (by simpa [List.getD] using h)
            exact ⟨k + 1, by simp [firstZero, hc, hk], by omega⟩

theorem zeroCount_set_one (l : List Nat) (i : Nat) (h : l.getD i 1 = 0) :
    zeroCount (l.set i 1) + 1 = zeroCount l := by
  induction l generalizing i with
  | nil => simp [List.getD] at h
  | cons c rest ih =>
      cases i with
      | zero =>
          have hc : c = 0 := by simpa [List.getD] using h
          subst hc
          simp [zeroCount, List.countP_cons]
      | succ j =>
          have := ih j (by simpa [List.getD] using h)
          simp only [List.set, zeroCount, List.countP_cons] at *
          omega

/-- Structure of a successful acquisition: the lowest-indexed zero
counter is chosen and raised to one. -/
theorem attach_ok_counts (st : BfSt) (perPage : Nat) (mapOk : Bool)
    (v : Nat) (st' : BfSt)
    (h : mlx5_attach_dedicated_bf st perPage mapOk = (.ok v, st')) :
    firstZero st.counts = some v ∧ st'.counts = st.counts.set v 1 := by
  cases hfz : firstZero st.counts with
  | none =>
      have hget : mlx5_get_bfreg_index st.counts = (none, st.counts) := by
        simp [mlx5_get_bfreg_index, hfz]
      simp only [mlx5_attach_dedicated_bf, hget] at h
      exact Prod.noConfusion h (fun h1 _ => Except.noConfusion h1)
  | some i =>
      obtain ⟨hlen, hz⟩ := firstZero_some st.counts i hfz
      have hget : mlx5_get_bfreg_index st.counts =
          (some i, st.counts.set i 1) := by
        simp only [mlx5_get_bfreg_index, hfz]
        rw [getD_default_irrel st.counts i 0 1 hlen, hz]
      simp only [mlx5_attach_dedicated_bf, hget] at h
      split at h
      · injection h with h1 h2
        injection h1 with h1
        subst h1
        exact ⟨rfl, by rw [← h2]⟩
      · split at h
        · injection h with h1 h2
          injection h1 with h1
          subst h1
          exact ⟨rfl, by rw [← h2]⟩
        · split at h
          · injection h with h1 h2
            injection h1 with h1
            subst h1
            exact ⟨rfl, by rw [← h2]⟩
          · exact Prod.noConfusion h (fun h1 _ => Except.noConfusion h1)

/-- Structure of a failed acquisition: the counter array is exactly as
before the call (chosen slot restored on a mapping failure). -/
theorem attach_error_counts (st : BfSt) (perPage : Nat) (mapOk : Bool)
    (e : Nat) (st' : BfSt)
    (h : mlx5_attach_dedicated_bf st perPage mapOk = (.error e, st')) :
    st'.counts = st.counts := by
  cases hfz : firstZero st.counts with
  | none =>
      have hget : mlx5_get_bfreg_index st.counts = (none, st.counts) := by
        simp [mlx5_get_bfreg_index, hfz]
      simp only [mlx5_attach_dedicated_bf, hget] at h
      injection h with h1 h2
      rw [← h2]
  | some i =>
      obtain ⟨hlen, hz⟩ := firstZero_some st.counts i hfz
      have hget : mlx5_get_bfreg_index st.counts =
          (some i, st.counts.set i 1) := by
        simp only [mlx5_get_bfreg_index, hfz]
        rw [getD_default_irrel st.counts i 0 1 hlen, hz]
      simp only [mlx5_attach_dedicated_bf, hget] at h
      split at h
      · exact Prod.noConfusion h (fun h1 _ => Except.noConfusion h1)
      · split at h
        · exact Prod.noConfusion h (fun h1 _ => Except.noConfusion h1)
        · split at h
          · exact Prod.noConfusion h (fun h1 _ => Except.noConfusion h1)
          · injection h with h1 h2
            rw [← h2]
            show mlx5_put_bfreg_index (st.counts.set i 1) i = st.counts
            simp only [mlx5_put_bfreg_index]
            rw [getD_set_self st.counts i 1 0 hlen]
            rw [List.set_set]
            exact set_zero_eq_self st.counts i hz

/-- With a free slot and a mapping that succeeds (or is not needed),
acquisition succeeds on the lowest free slot. -/
theorem attach_ok_of_mapOk (st : BfSt) (perPage i : Nat)
    (hfz : firstZero st.counts = some i) :
    (mlx5_attach_dedicated_bf st perPage true).1 = .ok i := by
  simp only [mlx5_attach_dedicated_bf, mlx5_get_bfreg_index, hfz]
  split
  · rfl
  · split
    · rfl
    · rfl

theorem runAcquires_le (perPage : Nat) (ms : List Bool) :
    ∀ st : BfSt, (runAcquires perPage ms st).1 ≤ zeroCount st.counts := by
  induction ms with
  | nil => intro st; simp [runAcquires]
  | cons m ms ih =>
      intro st
      simp only [runAcquires]
      cases hatt : mlx5_attach_dedicated_bf st perPage m with
      | mk r st' =>
          cases r with
          | ok v =>
              obtain ⟨hfz, hc⟩ := attach_ok_counts st perPage m v st' hatt
              obtain ⟨hlen, hz⟩ := firstZero_some st.counts v hfz
              have hzc : zeroCount st'.counts + 1 = zeroCount st.counts := by
                rw [hc]
                exact zeroCount_set_one st.counts v hz
              have := ih st'
              dsimp only
              omega
          | error e =>
              have hc := attach_error_counts st perPage m e st' hatt
              have := ih st'
              rw [hc] at this
              dsimp only
              omega

/-- C4: over the counter array, acquisition fails with `ENOENT` and
changes nothing when no counter is zero; a success takes exactly the
lowest-indexed zero counter and raises it to one; any failure (also a
page-mapping failure) leaves the counter array as it was; hence a run
of consecutive acquisitions succeeds at most `zeroCount` times — never
more than the capacity — and a released slot is immediately acquirable
again. -/
theorem bf_allocator_correct (st : BfSt) (perPage : Nat) (mapOk : Bool)
    (ms : List Bool) (i : Nat) :
    ((∀ x ∈ st.counts, x ≠ 0) →
       mlx5_attach_dedicated_bf st perPage mapOk = (.error 2, st)) ∧
    (∀ v st', mlx5_attach_dedicated_bf st perPage mapOk = (.ok v, st') →
       firstZero st.counts = some v ∧ st'.counts = st.counts.set v 1) ∧
    (∀ e st', mlx5_attach_dedicated_bf st perPage mapOk = (.error e, st') →
       st'.counts = st.counts) ∧
    ((runAcquires perPage ms st).1 ≤ zeroCount st.counts ∧
       zeroCount st.counts ≤ st.counts.length) ∧
    (i < st.counts.length → st.counts.getD i 1 = 1 →
       ∃ j, j ≤ i ∧
         (mlx5_attach_dedicated_bf
           { st with counts := mlx5_put_bfreg_index st.counts i }
           perPage true).1 = .ok j) := by
  refine ⟨?_, ?_, ?_, ⟨runAcquires_le perPage ms st,
    List.countP_le_length _⟩, ?_⟩
  · intro h
    have hfz := firstZero_none_of st.counts h
    simp [mlx5_attach_dedicated_bf, mlx5_get_bfreg_index, hfz]
  · exact fun v st' h => attach_ok_counts st perPage mapOk v st' h
  · exact fun e st' h => attach_error_counts st perPage mapOk e st' h
  · intro hlen hone
    have hput : mlx5_put_bfreg_index st.counts i = st.counts.set i 0 := by
      simp only [mlx5_put_bfreg_index]
      rw [getD_default_irrel st.counts i 0 1 hlen, hone]
    have hz : (st.counts.set i 0).getD i 1 = 0 :=
      getD_set_self st.counts i 0 1 hlen
    obtain ⟨j, hj, hjle⟩ := firstZero_le_of_zero (st.counts.set i 0) i
      (by simpa using hlen) hz
    refine ⟨j, hjle, ?_⟩
    rw [hput]
    exact attach_ok_of_mapOk _ perPage j hj

/-- Witness for C4 at capacity 3 with counters `[1, 0, 0]`: slot 1 (the
lowest free one) is acquired and raised to one, three consecutive
acquisitions succeed at most twice, and after releasing slot 0 an
acquisition succeeds again. -/
theorem bf_allocator_correct_witness :
    (firstZero [1, 0, 0] = some 1 ∧
       (BfSt.mk [1, 1, 0] [false, true, false] [true]).counts =
         [1, 0, 0].set 1 1) ∧
    ((runAcquires 4 [true, true, true]
        (BfSt.mk [1, 0, 0] [false, false, false] [false])).1 ≤
      zeroCount [1, 0, 0] ∧
      zeroCount [1, 0, 0] ≤ [1, 0, 0].length) ∧
    (∃ j, j ≤ 0 ∧
       (mlx5_attach_dedicated_bf
         { BfSt.mk [1, 0, 0] [false, false, false] [false] with
           counts := mlx5_put_bfreg_index [1, 0, 0] 0 }
         4 true).1 = .ok j) :=
  ⟨(bf_allocator_correct (BfSt.mk [1, 0, 0] [false, false, false] [false])
      4 true [true, true, true] 0).2.1 1
      (BfSt.mk [1, 1, 0] [false, true, false] [true]) (by rfl),
   (bf_allocator_correct (BfSt.mk [1, 0, 0] [false, false, false] [false])
      4 true [true, true, true] 0).2.2.2.1,
   (bf_allocator_correct (BfSt.mk [1, 0, 0] [false, false, false] [false])
      4 true [true, true, true] 0).2.2.2.2 (by decide) (by decide)⟩

/-! ## CQ creation validation -/

end Mlx5
